import Mathlib

/-!
Verification of the PharmHunter discovery/deduplication core.

This file gives a shallow embedding, in Lean 4, of the algorithmic core of the
PharmHunter repository:

* `src/utils/fuzzy_matcher.py` — company-name normalization
  (`normalize_company_name`), the difflib-based similarity scorer
  (`fuzzy_match_score`), and history matching (`find_best_match`);
* `src/services/company_history_service.py` — `is_duplicate` and
  `filter_duplicates`;
* `src/agents/scout_agent.py` — the persistence loop
  (`execute_with_persistence`) and the per-round query executor
  (`_execute_search_round`);
* the relevant record shapes from `src/models/pipeline_state.py` and
  `src/models/company_history.py`.

Modelling conventions:

* Python strings are modelled as Lean `String` / `List Char`; `str.lower` and
  the regex character classes `\s`, `\w` are modelled at ASCII fidelity (the
  company names the code manipulates are ASCII).
* The Python regexes used by `normalize_company_name` are each hard-coded
  patterns; their `re.sub` semantics (leftmost match, greedy quantifiers,
  anchored `$`) is implemented directly for those patterns.  The `$`-matches-
  before-trailing-newline corner of Python regexes is irrelevant here because
  the input is `.strip()`ed before any pattern is applied.
* `difflib.SequenceMatcher` is embedded by its defining semantics with no junk
  elements: `find_longest_match` returns the longest common infix, ties broken
  by earliest start in the first argument, then earliest start in the second;
  `ratio()` is `2*M/T`.  (The `autojunk` heuristic only activates on strings of
  length ≥ 200 and never for the names considered here.)  The float expression
  `int(ratio * 100)` is modelled exactly as `(200 * M) / T` in `Nat` (floor).
* External effects (network search, the LLM extraction call, wall-clock
  timestamps, `time.sleep`) are modelled as explicit oracle parameters or
  omitted fields; fallible calls return `Except String`.
-/

set_option maxRecDepth 10000

/-! ### Character-level models of Python `str.lower`, `\s`, `\w` (ASCII) -/

/-- Python `\s` (ASCII range): space, tab, newline, carriage return,
vertical tab, form feed. -/
def pyIsSpace (c : Char) : Bool :=
  c == ' ' || c == '\t' || c == '\n' || c == '\r' || c == '\x0b' || c == '\x0c'

/-- Python `\w` (ASCII range): letters, digits, underscore. -/
def pyIsWord (c : Char) : Bool :=
  c.isAlphanum || c == '_'

/-- Python `str.lower` on one ASCII character. -/
def pyToLower (c : Char) : Char :=
  if 65 ≤ c.toNat ∧ c.toNat ≤ 90 then Char.ofNat (c.toNat + 32) else c

/-- Drop the longest suffix all of whose characters satisfy `p`. -/
def dropWhileEnd (p : Char → Bool) (l : List Char) : List Char :=
  (l.reverse.dropWhile p).reverse

/-- Python `str.strip()` (whitespace at both ends). -/
def pyStrip (l : List Char) : List Char :=
  dropWhileEnd pyIsSpace (l.dropWhile pyIsSpace)

/-! ### `normalize_company_name` (src/utils/fuzzy_matcher.py, lines 44–79) -/

/-- The `COMPANY_SUFFIXES` regex list of `fuzzy_matcher.py`, in source order.
Each entry is the literal word of the pattern `\s+word$` together with a flag
recording whether the pattern ends in an optional dot (`\s+word\.?$`). -/
def companySuffixes : List (String × Bool) :=
  [("incorporated", false), ("corporation", false), ("company", false),
   ("limited", false), ("inc", true), ("llc", true), ("ltd", true),
   ("corp", true), ("co", true), ("plc", true), ("sa", true), ("ag", true),
   ("gmbh", true), ("therapeutics", false), ("pharmaceuticals", false),
   ("pharma", false), ("biopharma", false), ("biosciences", false),
   ("biotherapeutics", false), ("biotech", false), ("biotechnology", false),
   ("sciences", false), ("medical", false), ("health", false),
   ("healthcare", false)]

/-- One attempt at `re.sub(r'\s+word$', '', s)`: if `s` ends with `word`
preceded by at least one whitespace character, remove the word and the whole
whitespace run before it; otherwise report failure. -/
def tryStripWord (word : List Char) (s : List Char) : Option (List Char) :=
  if word.isSuffixOf s then
    let p := s.take (s.length - word.length)
    match p.getLast? with
    | some c => if pyIsSpace c then some (dropWhileEnd pyIsSpace p) else none
    | none => none
  else none

/-- `re.sub(r'\s+word\.?$', '', s)` (resp. without the `\.?` when
`optDot = false`), for a string with no trailing newline: a greedy `\.?`
must consume a final dot when one is present. -/
def stripOneSuffix (word : List Char) (optDot : Bool) (s : List Char) :
    List Char :=
  if optDot ∧ s.getLast? = some '.' then
    match tryStripWord word s.dropLast with
    | some r => r
    | none => s
  else
    match tryStripWord word s with
    | some r => r
    | none => s

/-- The single pass over `COMPANY_SUFFIXES` made by `normalize_company_name`
(each pattern applied once, in listed order). -/
def stripSuffixes (s : List Char) : List Char :=
  companySuffixes.foldl (fun t p => stripOneSuffix p.1.toList p.2 t) s

/-- Recursion core of `removeParens`, structurally recursive on a fuel
argument so that the definition reduces in the kernel.  Each recursive call
is on a list at least two characters shorter (a `(` and a `)` are consumed),
so `fuel = s.length` never runs out; the fuel-exhausted branch equals the
no-match result. -/
def removeParensGo : Nat → List Char → List Char
  | 0, s => s
  | fuel + 1, s =>
    let pre := s.takeWhile (fun c => c != '(')
    match s.dropWhile (fun c => c != '(') with
    | [] => s
    | _ :: tail =>
      match tail.dropWhile (fun c => c != ')') with
      | [] => s
      | _ :: afterClose =>
        dropWhileEnd pyIsSpace pre ++
          removeParensGo fuel (afterClose.dropWhile pyIsSpace)

/-- `re.sub(r'\s*\([^)]*\)\s*', '', s)`: repeatedly delete the leftmost
parenthesized group, together with the whitespace runs around it; a `(` with
no later `)` never matches. -/
def removeParens (s : List Char) : List Char :=
  removeParensGo s.length s

/-- `normalize_company_name` (fuzzy_matcher.py), on character lists. -/
def normalizeCore (s : List Char) : List Char :=
  if s = [] then []
  else
    let t0 := pyStrip (s.map pyToLower)
    let t1 := stripSuffixes t0
    let t2 := removeParens t1
    let t3 := t2.filter (fun c => pyIsWord c || pyIsSpace c)
    t3.filter (fun c => !pyIsSpace c)

/-- `normalize_company_name : str -> str`. -/
def normalizeCompanyName (s : String) : String :=
  ⟨normalizeCore s.data⟩

/-! ### `difflib.SequenceMatcher` (no junk; see header) -/

/-- Length of the longest common prefix of two character lists. -/
def commonExt : List Char → List Char → Nat
  | a :: as, b :: bs => if a = b then commonExt as bs + 1 else 0
  | _, _ => 0

/-- `SequenceMatcher.find_longest_match` over whole sequences (no junk):
scan all start pairs `(i, j)` in lexicographic order, keeping the first pair
achieving a strictly larger matching run.  This realizes the documented
contract "longest block, earliest in `a`, then earliest in `b`". -/
def findLongestBlock (a b : List Char) : Nat × Nat × Nat :=
  (List.range a.length).foldl
    (fun best i =>
      (List.range b.length).foldl
        (fun best j =>
          let k := commonExt (a.drop i) (b.drop j)
          if best.2.2 < k then (i, j, k) else best)
        best)
    (0, 0, 0)

/-- Recursion core of `matchesTotal`, structurally recursive on a fuel
argument so that the definition reduces in the kernel.  When a block of size
`k > 0` is split off, the two recursive calls are on window pairs whose total
length is at least one smaller (the block's `k ≥ 1` characters on each side
are consumed), so `fuel = a.length + b.length` never runs out; moreover with
`fuel = 0` both windows are empty and the fuel-exhausted result `0` agrees
with the no-block result. -/
def matchesTotalGo : Nat → List Char → List Char → Nat
  | 0, _, _ => 0
  | fuel + 1, a, b =>
    match findLongestBlock a b with
    | (i, j, k) =>
      if k = 0 then 0
      else
        matchesTotalGo fuel (a.take i) (b.take j) + k +
          matchesTotalGo fuel (a.drop (i + k)) (b.drop (j + k))

/-- Total size of the matching blocks of `SequenceMatcher.get_matching_blocks`
(the `M` of `ratio() = 2*M/T`), by the Ratcliff/Obershelp recursion: take the
longest block, then recurse on the parts to its left and to its right. -/
def matchesTotal (a b : List Char) : Nat :=
  matchesTotalGo (a.length + b.length) a b

/-- `fuzzy_match_score` (fuzzy_matcher.py, lines 82–110).  The Python
`int(ratio * 100)` with `ratio = 2*M/T` is the exact floor `(200*M)/T`
(`Nat` division); `T > 0` in the branch where it is evaluated, because the
two normalized names differ. -/
def fuzzyMatchScore (name1 name2 : String) : Nat :=
  if name1 = "" ∨ name2 = "" then 0
  else
    let norm1 := normalizeCompanyName name1
    let norm2 := normalizeCompanyName name2
    if norm1 = norm2 then 100
    else
      (200 * matchesTotal norm1.data norm2.data) /
        (norm1.length + norm2.length)

/-! ### Data model (src/models/company_history.py, src/models/leads.py)

`CompanyRecord` is kept to the fields the dedup core reads: `company_name`,
`normalized_name`, `last_seen` (modelled as its ISO string; `datetime` is
opaque to the algorithms) and `times_discovered`.  A `Lead` enters the dedup
and accumulation logic only through its `company_name`. -/

structure CompanyRecord where
  company_name : String
  normalized_name : String
  last_seen : String
  times_discovered : Nat
deriving DecidableEq, Repr

structure Lead where
  company_name : String
deriving DecidableEq, Repr

/-- One entry of the `duplicates` list built by `filter_duplicates`.  The
Python code builds a dict; keys absent in the `duplicate_in_batch` branch
(`matched_with`, `last_seen`, `times_discovered`) are modelled as `none`. -/
structure DuplicateDetail where
  company_name : String
  matched_with : Option String
  reason : String
  match_score : Nat
  last_seen : Option String
  times_discovered : Option Nat
deriving DecidableEq, Repr

/-! ### `find_best_match` (fuzzy_matcher.py, lines 128–165) -/

/-- The record loop of `find_best_match`: first an exact `normalized_name`
check (short-circuits at score 100), otherwise track the best fuzzy score
that reaches the threshold. -/
def findBestMatchLoop (companyName : String) (normalizedSearch : String)
    (threshold : Nat) :
    List CompanyRecord → Option CompanyRecord × Nat → Option CompanyRecord × Nat
  | [], best => best
  | record :: rest, best =>
    if record.normalized_name = normalizedSearch then (some record, 100)
    else
      let score := fuzzyMatchScore companyName record.company_name
      if best.2 < score ∧ threshold ≤ score then
        findBestMatchLoop companyName normalizedSearch threshold rest
          (some record, score)
      else
        findBestMatchLoop companyName normalizedSearch threshold rest best

/-- `find_best_match(company_name, company_records, threshold)`. -/
def findBestMatch (companyName : String) (records : List CompanyRecord)
    (threshold : Nat) : Option CompanyRecord × Nat :=
  if companyName = "" ∨ records = [] then (none, 0)
  else
    findBestMatchLoop companyName (normalizeCompanyName companyName)
      threshold records (none, 0)

/-! ### `CompanyHistoryService` (src/services/company_history_service.py)

The service reads the history store (`load_history`); the store content is
passed here as an explicit snapshot parameter.  `DEFAULT_MATCH_THRESHOLD = 85`
is the service's default `match_threshold`. -/

def DEFAULT_MATCH_THRESHOLD : Nat := 85

/-- `CompanyHistoryService.is_duplicate` (lines 306–332). -/
def isDuplicate (history : List CompanyRecord) (threshold : Nat)
    (companyName : String) : Bool × Option CompanyRecord × Nat :=
  if history = [] then (false, none, 0)
  else
    let bm := findBestMatch companyName history threshold
    (bm.1.isSome && decide (threshold ≤ bm.2), bm.1, bm.2)

/-- The per-lead body of `filter_duplicates`, processing leads in order while
threading the kept list, the duplicate list, and the intra-batch seen set. -/
def filterDuplicatesLoop (history : List CompanyRecord) (threshold : Nat) :
    List Lead → List Lead → List DuplicateDetail → List String →
    List Lead × List DuplicateDetail
  | [], kept, dups, _ => (kept, dups)
  | lead :: rest, kept, dups, seen =>
    let normalized := normalizeCompanyName lead.company_name
    if normalized ∈ seen then
      filterDuplicatesLoop history threshold rest kept
        (dups ++ [{ company_name := lead.company_name,
                    matched_with := none,
                    reason := "duplicate_in_batch",
                    match_score := 100,
                    last_seen := none,
                    times_discovered := none }]) seen
    else
      match isDuplicate history threshold lead.company_name with
      | (isDup, existing, score) =>
        match existing with
        | some record =>
          if isDup then
            filterDuplicatesLoop history threshold rest kept
              (dups ++ [{ company_name := lead.company_name,
                          matched_with := some record.company_name,
                          reason := "found_in_history",
                          match_score := score,
                          last_seen := some record.last_seen,
                          times_discovered := some record.times_discovered }])
              seen
          else
            filterDuplicatesLoop history threshold rest (kept ++ [lead]) dups
              (normalized :: seen)
        | none =>
          filterDuplicatesLoop history threshold rest (kept ++ [lead]) dups
            (normalized :: seen)

/-- `CompanyHistoryService.filter_duplicates` (lines 334–382): returns
`(filtered_leads, duplicate_count, duplicate_details)`. -/
def filterDuplicates (history : List CompanyRecord) (threshold : Nat)
    (leads : List Lead) : List Lead × Nat × List DuplicateDetail :=
  match filterDuplicatesLoop history threshold leads [] [] [] with
  | (kept, dups) => (kept, dups.length, dups)

/-- The history snapshot of the spec's Duplicate Resolver example. -/
def acmeRecord : CompanyRecord :=
  { company_name := "Acme Biosciences Inc", normalized_name := "acme",
    last_seen := "2025-01-01T00:00:00", times_discovered := 3 }

def acmeHistory : List CompanyRecord := [acmeRecord]

/-! ### `ScoutAgent.execute_with_persistence` (scout_agent.py, lines 154–270)

The three tier-specific round functions (`_search_priority_1/2/_search_expanded`)
each end in a network search plus an LLM extraction; they are abstracted as an
oracle `roundFn : round number → requested count → leads produced`, exactly as
they are consumed by the loop: round 1 is invoked with the full `count`, later
rounds with `count - len(all_leads)`.  Wall-clock timestamps and `time.sleep`
are omitted.  `roundsExecuted` is proof instrumentation: it records, in order,
the round number of every iteration that invoked a round function (the code
itself issues its queries inside those invocations). -/

structure LoopState where
  all_leads : List Lead
  seen_companies : List String
  search_rounds : Nat
  roundsExecuted : List (Nat × Nat)
deriving Repr

/-- Python `str.lower()` on a whole string (ASCII model). -/
def pyLower (s : String) : String :=
  ⟨s.data.map pyToLower⟩

/-- The per-round merge: `for lead in round_leads: if lead.company_name.lower()
not in seen_companies: add to seen and append to all_leads`. -/
def mergeRoundLeads (st : LoopState) (roundLeads : List Lead) : LoopState :=
  roundLeads.foldl
    (fun st lead =>
      if pyLower lead.company_name ∈ st.seen_companies then st
      else { st with
              seen_companies := st.seen_companies ++ [pyLower lead.company_name],
              all_leads := st.all_leads ++ [lead] })
    st

/-- The `while len(all_leads) < count and round_num <= max_rounds` loop.  Each
iteration invokes the round oracle, merges the new leads skipping already-seen
names, sets `search_ledger.search_rounds = round_num`, and breaks early when
the quota is reached.  The instrumentation entry `(roundNum, n)` records the
accumulated lead count `n` right after round `roundNum`'s merge. -/
def persistLoopGo (roundFn : Nat → Nat → List Lead) (count maxRounds : Nat) :
    Nat → Nat → LoopState → LoopState
  | 0, _, st => st
  | fuel + 1, roundNum, st =>
    if st.all_leads.length < count ∧ roundNum ≤ maxRounds then
      let req := if roundNum = 1 then count else count - st.all_leads.length
      let st1 := mergeRoundLeads st (roundFn roundNum req)
      let st2 := { st1 with
                    search_rounds := roundNum,
                    roundsExecuted :=
                      st1.roundsExecuted ++ [(roundNum, st1.all_leads.length)] }
      if count ≤ st2.all_leads.length then st2
      else persistLoopGo roundFn count maxRounds fuel (roundNum + 1) st2
    else st

/-- The loop, entered at round `roundNum` (the code enters it at round 1).
Structural recursion on the fuel `maxRounds + 1 - roundNum`, which bounds the
number of remaining iterations: when it is `0` the guard
`roundNum <= max_rounds` is false and the fuel-exhausted branch coincides
with the loop exit. -/
def persistLoop (roundFn : Nat → Nat → List Lead) (count maxRounds : Nat)
    (roundNum : Nat) (st : LoopState) : LoopState :=
  persistLoopGo roundFn count maxRounds (maxRounds + 1 - roundNum) roundNum st

/-- The `SearchLedger` fields this embedding tracks (pipeline_state.py,
lines 23–37): per-query records are produced inside the round functions and
are modelled separately by `executeSearchRound`; timestamps are omitted. -/
structure Ledger where
  search_rounds : Nat
  unique_results_found : Nat
  duplicates_filtered : Nat
  duplicate_details : List DuplicateDetail
  roundsExecuted : List (Nat × Nat)
deriving Repr

/-- `execute_with_persistence(count, ..., max_rounds)` after the loop exits:
`unique_results_found` is first set to the accumulated count, then the whole
accumulated set is passed once to `filter_duplicates` against the history
snapshot, after which `unique_results_found` is overwritten with the kept
count, the duplicate statistics are stored, and the kept leads are returned
truncated to `count`. -/
def executeWithPersistence (roundFn : Nat → Nat → List Lead)
    (history : List CompanyRecord) (count : Nat) (maxRounds : Nat := 3) :
    List Lead × Ledger :=
  let final := persistLoop roundFn count maxRounds 1 ⟨[], [], 0, []⟩
  -- search_ledger.unique_results_found = len(all_leads)  (finalization)
  let uniqueBeforeDedup := final.all_leads.length
  match filterDuplicates history DEFAULT_MATCH_THRESHOLD final.all_leads with
  | (filteredLeads, duplicateCount, duplicateDetails) =>
    -- search_ledger.unique_results_found = len(filtered_leads)  (overwrite)
    let _ := uniqueBeforeDedup
    (filteredLeads.take count,
     { search_rounds := final.search_rounds,
       unique_results_found := filteredLeads.length,
       duplicates_filtered := duplicateCount,
       duplicate_details := duplicateDetails,
       roundsExecuted := final.roundsExecuted })

/-! ### `ScoutAgent._execute_search_round` (scout_agent.py, lines 407–496)

The Tavily search call is an oracle `searchCap : query → Except errMsg results`
(`TavilyService.search_with_retry`; a raised exception carries `str(e)`).
The LLM extraction step `_extract_leads_from_results` is an oracle from the
tagged, URL-deduplicated results to leads.  `SourceRecord` keeps the fields
the code writes, minus the `query_timestamp`. -/

structure RawResult where
  url : String
deriving DecidableEq, Repr

structure SourceInfo where
  name : String
  priority : Nat
deriving Repr

structure SourceRecordM where
  source_name : String
  source_priority : Nat
  query_text : String
  results_count : Nat
  was_successful : Bool
  error_message : Option String
  domains_searched : List String
deriving DecidableEq, Repr

/-- A raw result tagged with `_source_priority`, `_search_round`,
`_search_query` and `_rank` (the `_source_name` tag is a pure function of the
URL and is not tracked separately). -/
structure TaggedResult where
  url : String
  source_priority : Nat
  search_round : Nat
  search_query : String
  rank : Nat
deriving DecidableEq, Repr

/-- The URL-dedup loop over one query's results: results with an empty or
already-seen URL are dropped, the rest are tagged (rank = position in the
accumulated list, 1-based) and appended. -/
def dedupResults (searchRound : Nat) (priority : Nat) (query : String)
    (results : List RawResult) (seen : List String) (acc : List TaggedResult) :
    List String × List TaggedResult :=
  results.foldl
    (fun p r =>
      if r.url ≠ "" ∧ r.url ∉ p.1 then
        (p.1 ++ [r.url],
         p.2 ++ [{ url := r.url, source_priority := priority,
                   search_round := searchRound, search_query := query,
                   rank := p.2.length + 1 }])
      else p)
    (seen, acc)

/-- The per-query loop of `_execute_search_round`: one `SourceRecord` is
appended per query — a success record (with the result count) when the search
capability returns, a failure record (count 0, `error_message = str(e)`) when
it raises — and the round proceeds to the next query either way. -/
def runQueries (searchCap : String → Except String (List RawResult))
    (sourceName : String) (sourcePriority : Nat) (domains : List String)
    (searchRound : Nat) :
    List String → List String → List TaggedResult →
    List SourceRecordM × List TaggedResult
  | [], _, acc => ([], acc)
  | query :: rest, seenUrls, acc =>
    match searchCap query with
    | .ok results =>
      let record : SourceRecordM :=
        { source_name := sourceName, source_priority := sourcePriority,
          query_text := query, results_count := results.length,
          was_successful := true, error_message := none,
          domains_searched := domains }
      match dedupResults searchRound sourcePriority query results seenUrls acc with
      | (seen', acc') =>
        match runQueries searchCap sourceName sourcePriority domains
            searchRound rest seen' acc' with
        | (recs, finalAcc) => (record :: recs, finalAcc)
    | .error e =>
      let record : SourceRecordM :=
        { source_name := sourceName, source_priority := sourcePriority,
          query_text := query, results_count := 0,
          was_successful := false, error_message := some e,
          domains_searched := domains }
      match runQueries searchCap sourceName sourcePriority domains
          searchRound rest seenUrls acc with
      | (recs, finalAcc) => (record :: recs, finalAcc)

/-- `_execute_search_round`: run all queries (recording one source record
each), then — only if any results were accumulated — hand the tagged batch to
the extraction capability.  Returns the source records appended to the ledger
together with the leads of the round. -/
def executeSearchRound (searchCap : String → Except String (List RawResult))
    (extractCap : List TaggedResult → List Lead)
    (sourceName : String) (sourcePriority : Nat) (domains : List String)
    (searchRound : Nat) (queries : List String) :
    List SourceRecordM × List Lead :=
  match runQueries searchCap sourceName sourcePriority domains searchRound
      queries [] [] with
  | (recs, allResults) =>
    if allResults = [] then (recs, [])
    else (recs, extractCap allResults)

/-! ## Claims -/

/-- C2 (code_bug evidence): the code's own docstring promises
`"Radiant Therapeutics, Inc." -> "radiant"`, and the spec asserts
`normalize("Radiant Therapeutics, Inc.") == normalize("Radiant Therapeutics")`,
but the single pass over `COMPANY_SUFFIXES` strips only `" inc."`, leaving a
trailing comma that blocks the `therapeutics` pattern: the two inputs
normalize to `"radianttherapeutics"` and `"radiant"` respectively, which
differ. -/
theorem c2_normalize_not_suffix_insensitive :
    normalizeCompanyName "Radiant Therapeutics, Inc." = "radianttherapeutics" ∧
    normalizeCompanyName "Radiant Therapeutics" = "radiant" ∧
    normalizeCompanyName "Radiant Therapeutics, Inc." ≠
      normalizeCompanyName "Radiant Therapeutics" := by
  refine ⟨by decide, by decide, by decide⟩

/-- C10: if two raw names are non-empty but both normalize to the empty
string, `fuzzy_match_score` returns 100: the `norm1 == norm2` fast path fires
before any emptiness check on the normalized strings; the returns-0 guard
looks only at the raw inputs. -/
theorem c10_empty_normalizations_score_100 (a b : String)
    (ha : a ≠ "") (hb : b ≠ "")
    (hna : normalizeCompanyName a = "") (hnb : normalizeCompanyName b = "") :
    fuzzyMatchScore a b = 100 := by
  simp [fuzzyMatchScore, ha, hb, hna, hnb]

theorem c10_empty_normalizations_score_100_witness :
    (("..." : String) ≠ "" ∧ ("()" : String) ≠ "" ∧
      normalizeCompanyName "..." = "" ∧ normalizeCompanyName "()" = "") ∧
    fuzzyMatchScore "..." "()" = 100 :=
  ⟨⟨by decide, by decide, by decide, by decide⟩,
    c10_empty_normalizations_score_100 "..." "()"
      (by decide) (by decide) (by decide) (by decide)⟩

/-- C7 (counterexample): `fuzzy_match_score` is not symmetric.  Both inputs
are fixed by normalization; `SequenceMatcher("abwcd", "wecdab")` picks the
tied longest block `"ab"` (earliest in the first sequence) and totals 2
matching characters (score 36), while `SequenceMatcher("wecdab", "abwcd")`
picks `"cd"` and additionally recovers the `'w'` on the left, totalling 3
(score 54). -/
theorem c7_fuzzy_score_not_symmetric :
    ¬ (fuzzyMatchScore "abwcd" "wecdab" = fuzzyMatchScore "wecdab" "abwcd") := by
  decide

theorem fuzzyMatchScore_empty_left (b : String) : fuzzyMatchScore "" b = 0 := by
  unfold fuzzyMatchScore
  rw [if_pos (Or.inl rfl)]

theorem fuzzyMatchScore_empty_right (a : String) : fuzzyMatchScore a "" = 0 := by
  unfold fuzzyMatchScore
  rw [if_pos (Or.inr rfl)]

theorem fuzzyMatchScore_of_norm_eq (a b : String) (ha : a ≠ "") (hb : b ≠ "")
    (h : normalizeCompanyName a = normalizeCompanyName b) :
    fuzzyMatchScore a b = 100 := by
  unfold fuzzyMatchScore
  rw [if_neg (by simp [ha, hb])]
  dsimp only
  rw [if_pos h]

/-- C7 (amended): the scorer is symmetric on the short-circuit paths — when
either raw input is empty, or the two names have equal normalizations.  (On
the remaining path the `SequenceMatcher` ratio is order-dependent, see the
counterexample.) -/
theorem c7_fuzzy_score_symmetric_on_fast_paths (a b : String)
    (h : a = "" ∨ b = "" ∨ normalizeCompanyName a = normalizeCompanyName b) :
    fuzzyMatchScore a b = fuzzyMatchScore b a := by
  rcases h with h | h | h
  · subst h
    rw [fuzzyMatchScore_empty_left, fuzzyMatchScore_empty_right]
  · subst h
    rw [fuzzyMatchScore_empty_left, fuzzyMatchScore_empty_right]
  · by_cases ha : a = ""
    · subst ha
      rw [fuzzyMatchScore_empty_left, fuzzyMatchScore_empty_right]
    · by_cases hb : b = ""
      · subst hb
        rw [fuzzyMatchScore_empty_left, fuzzyMatchScore_empty_right]
      · rw [fuzzyMatchScore_of_norm_eq a b ha hb h,
          fuzzyMatchScore_of_norm_eq b a hb ha h.symm]

theorem c7_fuzzy_score_symmetric_on_fast_paths_witness :
    (("Acme Bio" : String) = "" ∨ ("ACME Bio" : String) = "" ∨
      normalizeCompanyName "Acme Bio" = normalizeCompanyName "ACME Bio") ∧
    fuzzyMatchScore "Acme Bio" "ACME Bio" = fuzzyMatchScore "ACME Bio" "Acme Bio" :=
  ⟨Or.inr (Or.inr (by decide)),
    c7_fuzzy_score_symmetric_on_fast_paths "Acme Bio" "ACME Bio"
      (Or.inr (Or.inr (by decide)))⟩

/-- Modelled from the spec's words (§4.2, claim C6): identical to
`fuzzyMatchScore` except that the non-trivial branch returns
`round(ratio * 100)` — the ratio scaled to 0–100 and rounded to the nearest
integer — instead of Python's truncating `int(ratio * 100)`.  Used only to
compare the spec's claimed behavior against the code's. -/
def specRoundScore (name1 name2 : String) : ℤ :=
  if name1 = "" ∨ name2 = "" then 0
  else
    let norm1 := normalizeCompanyName name1
    let norm2 := normalizeCompanyName name2
    if norm1 = norm2 then 100
    else
      round ((2 * (matchesTotal norm1.data norm2.data : ℚ) /
        ((norm1.length : ℚ) + (norm2.length : ℚ))) * 100)

/-- C6 (counterexample): on `"abc"`/`"abd"` (both fixed by normalization,
3 characters each, 2 matching characters, so `ratio * 100 = 200/3 ≈ 66.7`),
the code returns the truncated `66` while the spec's `round` gives `67`. -/
theorem c6_score_truncates_not_rounds :
    fuzzyMatchScore "abc" "abd" = 66 ∧ specRoundScore "abc" "abd" = 67 ∧
    ¬ ((fuzzyMatchScore "abc" "abd" : ℤ) = specRoundScore "abc" "abd") := by
  have hcode : fuzzyMatchScore "abc" "abd" = 66 := by decide
  have hspec : specRoundScore "abc" "abd" = 67 := by
    have e1 : normalizeCompanyName "abc" = "abc" := by decide
    have e2 : normalizeCompanyName "abd" = "abd" := by decide
    have hm : matchesTotal ("abc" : String).data ("abd" : String).data = 2 := by
      decide
    have hl1 : ("abc" : String).length = 3 := rfl
    have hl2 : ("abd" : String).length = 3 := rfl
    unfold specRoundScore
    rw [if_neg (by decide)]
    dsimp only
    rw [e1, e2, if_neg (by decide), hm, hl1, hl2, round_eq]
    rw [show (2 * ((2 : ℕ) : ℚ) / (((3 : ℕ) : ℚ) + ((3 : ℕ) : ℚ)) * 100 + 1 / 2)
        = 403 / 6 from by push_cast; norm_num]
    rw [Int.floor_eq_iff]
    norm_num
  refine ⟨hcode, hspec, by rw [hcode, hspec]; decide⟩

/-- C6 (amended): for non-empty inputs with distinct normalized forms,
`fuzzy_match_score` returns `ratio * 100` truncated — the floor
`⌊2*M/T * 100⌋` of the Ratcliff/Obershelp ratio of the two normalized
strings scaled to 0–100 — not the nearest-integer rounding (`int()` in
Python truncates toward zero). -/
theorem c6_score_is_floor_of_scaled_ratio (a b : String)
    (ha : a ≠ "") (hb : b ≠ "")
    (hne : normalizeCompanyName a ≠ normalizeCompanyName b) :
    fuzzyMatchScore a b =
      ⌊2 * (matchesTotal (normalizeCompanyName a).data
              (normalizeCompanyName b).data : ℚ) /
          (((normalizeCompanyName a).length : ℚ) +
            ((normalizeCompanyName b).length : ℚ)) * 100⌋₊ := by
  have key : 2 * (matchesTotal (normalizeCompanyName a).data
        (normalizeCompanyName b).data : ℚ) /
        (((normalizeCompanyName a).length : ℚ) +
          ((normalizeCompanyName b).length : ℚ)) * 100 =
      ((200 * matchesTotal (normalizeCompanyName a).data
          (normalizeCompanyName b).data : ℕ) : ℚ) /
        (((normalizeCompanyName a).length +
          (normalizeCompanyName b).length : ℕ) : ℚ) := by
    push_cast
    ring
  rw [key, Nat.floor_div_nat, Nat.floor_natCast]
  unfold fuzzyMatchScore
  rw [if_neg (by simp [ha, hb])]
  dsimp only
  rw [if_neg hne]

theorem c6_score_is_floor_of_scaled_ratio_witness :
    (("abc" : String) ≠ "" ∧ ("abd" : String) ≠ "" ∧
      normalizeCompanyName "abc" ≠ normalizeCompanyName "abd") ∧
    fuzzyMatchScore "abc" "abd" =
      ⌊2 * (matchesTotal (normalizeCompanyName "abc").data
              (normalizeCompanyName "abd").data : ℚ) /
          (((normalizeCompanyName "abc").length : ℚ) +
            ((normalizeCompanyName "abd").length : ℚ)) * 100⌋₊ :=
  ⟨⟨by decide, by decide, by decide⟩,
    c6_score_is_floor_of_scaled_ratio "abc" "abd"
      (by decide) (by decide) (by decide)⟩

/-- C1 (counterexample): against the history containing exactly
`{company_name: "Acme Biosciences Inc", normalized_name: "acme"}` at the
default threshold 85, the candidate `"ACME BIO"` is NOT rejected:
it normalizes to `"acmebio"` (`"bio"` is not a stripped suffix), the exact
normalized-name check fails (`"acmebio" ≠ "acme"`), and the fuzzy score of
the display names is `int(100 * 8/11) = 72 < 85`, so `filter_duplicates`
keeps the candidate and reports no duplicates. -/
theorem c1_acme_bio_not_rejected :
    filterDuplicates acmeHistory DEFAULT_MATCH_THRESHOLD [⟨"ACME BIO"⟩] =
      ([⟨"ACME BIO"⟩], 0, []) ∧
    fuzzyMatchScore "ACME BIO" "Acme Biosciences Inc" = 72 ∧
    findBestMatch "ACME BIO" acmeHistory DEFAULT_MATCH_THRESHOLD = (none, 0) := by
  refine ⟨by decide, by decide, by decide⟩

/-- C1 (amended): per §4.3 step 3, a candidate (not already seen in the
batch) whose best match against the history reaches the threshold — here:
`find_best_match` returns a record with `threshold ≤ score` — is rejected as
a duplicate with reason `"found_in_history"`, carrying the matched record's
name, the score, its last-seen date and its discovery count.  (The concrete
instance of the claim must use a candidate that actually reaches the
threshold, e.g. `"ACME Biosciences"`, which hits the exact normalized-name
match at score 100; `"ACME BIO"` only scores 72 and is kept, see the
counterexample.) -/
theorem c1_threshold_match_rejected_as_found_in_history
    (history : List CompanyRecord) (threshold : Nat) (lead : Lead)
    (rest kept : List Lead) (dups : List DuplicateDetail) (seen : List String)
    (record : CompanyRecord) (score : Nat)
    (hh : history ≠ [])
    (hbm : findBestMatch lead.company_name history threshold =
      (some record, score))
    (hts : threshold ≤ score)
    (hseen : normalizeCompanyName lead.company_name ∉ seen) :
    filterDuplicatesLoop history threshold (lead :: rest) kept dups seen =
      filterDuplicatesLoop history threshold rest kept
        (dups ++ [{ company_name := lead.company_name,
                    matched_with := some record.company_name,
                    reason := "found_in_history",
                    match_score := score,
                    last_seen := some record.last_seen,
                    times_discovered := some record.times_discovered }]) seen := by
  have hd : isDuplicate history threshold lead.company_name =
      (true, some record, score) := by
    unfold isDuplicate
    rw [if_neg hh, hbm]
    simp [hts]
  simp only [filterDuplicatesLoop]
  rw [if_neg hseen, hd]
  exact rfl

theorem c1_threshold_match_rejected_as_found_in_history_witness :
    (acmeHistory ≠ [] ∧
      findBestMatch "ACME Biosciences" acmeHistory DEFAULT_MATCH_THRESHOLD =
        (some acmeRecord, 100) ∧
      DEFAULT_MATCH_THRESHOLD ≤ 100 ∧
      normalizeCompanyName "ACME Biosciences" ∉ ([] : List String)) ∧
    filterDuplicatesLoop acmeHistory DEFAULT_MATCH_THRESHOLD
        [(⟨"ACME Biosciences"⟩ : Lead)] [] [] [] =
      filterDuplicatesLoop acmeHistory DEFAULT_MATCH_THRESHOLD [] []
        ([] ++ [{ company_name := "ACME Biosciences",
                  matched_with := some acmeRecord.company_name,
                  reason := "found_in_history",
                  match_score := 100,
                  last_seen := some acmeRecord.last_seen,
                  times_discovered := some acmeRecord.times_discovered }]) [] :=
  ⟨⟨by decide, by decide, by decide, by decide⟩,
    c1_threshold_match_rejected_as_found_in_history acmeHistory
      DEFAULT_MATCH_THRESHOLD ⟨"ACME Biosciences"⟩ [] [] [] [] acmeRecord 100
      (by decide) (by decide) (by decide) (by decide)⟩

/-- C8: on the batch `["Acme Bio", "ACME Bio", "Other Co"]` with empty
history, `filter_duplicates` keeps `["Acme Bio", "Other Co"]` in order and
reports exactly one duplicate, `"ACME Bio"`, with reason
`"duplicate_in_batch"`, score 100 and no matched-record reference; and in
general any candidate whose normalized name was already accepted earlier in
the same call is rejected exactly this way. -/
theorem c8_intra_batch_duplicate_rejected :
    (filterDuplicates [] DEFAULT_MATCH_THRESHOLD
        [⟨"Acme Bio"⟩, ⟨"ACME Bio"⟩, ⟨"Other Co"⟩] =
      ([⟨"Acme Bio"⟩, ⟨"Other Co"⟩], 1,
        [{ company_name := "ACME Bio", matched_with := none,
           reason := "duplicate_in_batch", match_score := 100,
           last_seen := none, times_discovered := none }])) ∧
    (∀ (history : List CompanyRecord) (threshold : Nat) (lead : Lead)
        (rest kept : List Lead) (dups : List DuplicateDetail)
        (seen : List String),
      normalizeCompanyName lead.company_name ∈ seen →
      filterDuplicatesLoop history threshold (lead :: rest) kept dups seen =
        filterDuplicatesLoop history threshold rest kept
          (dups ++ [{ company_name := lead.company_name,
                      matched_with := none,
                      reason := "duplicate_in_batch",
                      match_score := 100,
                      last_seen := none,
                      times_discovered := none }]) seen) := by
  refine ⟨by decide, ?_⟩
  intro history threshold lead rest kept dups seen hmem
  simp only [filterDuplicatesLoop]
  rw [if_pos hmem]

theorem c8_intra_batch_duplicate_rejected_witness :
    (normalizeCompanyName "ACME Bio" ∈ ["acmebio"]) ∧
    filterDuplicatesLoop [] DEFAULT_MATCH_THRESHOLD [(⟨"ACME Bio"⟩ : Lead)]
        [⟨"Acme Bio"⟩] [] ["acmebio"] =
      filterDuplicatesLoop [] DEFAULT_MATCH_THRESHOLD [] [⟨"Acme Bio"⟩]
        ([] ++ [{ company_name := "ACME Bio", matched_with := none,
                  reason := "duplicate_in_batch", match_score := 100,
                  last_seen := none, times_discovered := none }]) ["acmebio"] :=
  ⟨by decide,
    c8_intra_batch_duplicate_rejected.2 [] DEFAULT_MATCH_THRESHOLD ⟨"ACME Bio"⟩
      [] [⟨"Acme Bio"⟩] [] ["acmebio"] (by decide)⟩

/-- C3 (counterexample): a run with quota 1 whose single round finds the
already-known company `"Acme"` accumulates 1 unique lead, but the returned
ledger's `unique_results_found` is 0: the finalization value
`len(all_leads)` is overwritten with `len(filtered_leads)` after the
history dedup, before `execute_with_persistence` returns. -/
theorem c3_unique_results_overwritten_after_dedup :
    (executeWithPersistence (fun _ _ => [⟨"Acme"⟩]) acmeHistory 1).2.unique_results_found = 0 ∧
    (persistLoop (fun _ _ => [⟨"Acme"⟩]) 1 3 1 ⟨[], [], 0, []⟩).all_leads.length = 1 ∧
    (executeWithPersistence (fun _ _ => [⟨"Acme"⟩]) acmeHistory 1).2.unique_results_found ≠
      (persistLoop (fun _ _ => [⟨"Acme"⟩]) 1 3 1 ⟨[], [], 0, []⟩).all_leads.length := by
  refine ⟨by decide, by decide, by decide⟩

/-- C3 (amended): when `execute_with_persistence` returns, the ledger's
`unique_results_found` equals the number of leads KEPT by the history
deduplication of the whole accumulated set (before quota truncation) — not
the accumulated count before dedup, which is assigned to the field but then
overwritten. -/
theorem c3_unique_results_is_kept_count (roundFn : Nat → Nat → List Lead)
    (history : List CompanyRecord) (count maxRounds : Nat) :
    (executeWithPersistence roundFn history count maxRounds).2.unique_results_found =
      (filterDuplicates history DEFAULT_MATCH_THRESHOLD
        (persistLoop roundFn count maxRounds 1 ⟨[], [], 0, []⟩).all_leads).1.length := by
  unfold executeWithPersistence
  dsimp only

/-- `mergeRoundLeads` only touches `all_leads` and `seen_companies`. -/
theorem mergeRoundLeads_preserves (st : LoopState) (ls : List Lead) :
    (mergeRoundLeads st ls).roundsExecuted = st.roundsExecuted ∧
    (mergeRoundLeads st ls).search_rounds = st.search_rounds := by
  induction ls generalizing st with
  | nil => exact ⟨rfl, rfl⟩
  | cons l rest ih =>
    unfold mergeRoundLeads
    simp only [List.foldl_cons]
    by_cases h : pyLower l.company_name ∈ st.seen_companies
    · rw [if_pos h]
      exact ih st
    · rw [if_neg h]
      exact ih _

/-- Loop invariant for C4: entering an iteration at round `roundNum`, every
logged round so far is earlier than `roundNum` and ended below quota; then
any logged round that reached the quota is the round at which the loop
stopped, and no later round was executed. -/
theorem persistLoopGo_quota_stops (roundFn : Nat → Nat → List Lead)
    (count maxRounds : Nat) :
    ∀ (fuel roundNum : Nat) (st : LoopState),
      (∀ p ∈ st.roundsExecuted, p.1 < roundNum ∧ p.2 < count) →
      ∀ r c, (r, c) ∈ (persistLoopGo roundFn count maxRounds fuel roundNum st).roundsExecuted →
        count ≤ c →
        (persistLoopGo roundFn count maxRounds fuel roundNum st).search_rounds = r ∧
        ∀ r' c', (r', c') ∈ (persistLoopGo roundFn count maxRounds fuel roundNum st).roundsExecuted →
          r' ≤ r := by
  intro fuel
  induction fuel with
  | zero =>
    intro roundNum st hinv r c hmem hq
    exact absurd hq (Nat.not_le.mpr (hinv _ hmem).2)
  | succ fuel ih =>
    intro roundNum st hinv r c hmem hq
    by_cases hguard : st.all_leads.length < count ∧ roundNum ≤ maxRounds
    · simp only [persistLoopGo, if_pos hguard] at hmem ⊢
      set st1 := mergeRoundLeads st
        (roundFn roundNum (if roundNum = 1 then count else count - st.all_leads.length)) with hst1
      have hpres := mergeRoundLeads_preserves st
        (roundFn roundNum (if roundNum = 1 then count else count - st.all_leads.length))
      by_cases hstop : count ≤ st1.all_leads.length
      · rw [if_pos hstop] at hmem ⊢
        simp only [List.mem_append, List.mem_singleton] at hmem
        rcases hmem with hmem | hmem
        · rw [hpres.1] at hmem
          exact absurd hq (Nat.not_le.mpr (hinv _ hmem).2)
        · have hr : r = roundNum := by
            have := congrArg Prod.fst hmem
            exact this
          constructor
          · exact hr.symm
          · intro r' c' hmem'
            simp only [List.mem_append, List.mem_singleton] at hmem'
            rcases hmem' with hmem' | hmem'
            · rw [hpres.1] at hmem'
              exact hr ▸ Nat.le_of_lt (hinv _ hmem').1
            · have : r' = roundNum := congrArg Prod.fst hmem'
              rw [this, hr]
      · rw [if_neg hstop] at hmem ⊢
        refine ih (roundNum + 1) _ ?_ r c hmem hq
        intro p hp
        simp only [List.mem_append, List.mem_singleton] at hp
        rcases hp with hp | hp
        · rw [hpres.1] at hp
          exact ⟨Nat.lt_succ_of_lt (hinv _ hp).1, (hinv _ hp).2⟩
        · rw [hp]
          exact ⟨Nat.lt_succ_self _, Nat.lt_of_not_le hstop⟩
    · simp only [persistLoopGo, if_neg hguard] at hmem ⊢
      exact absurd hq (Nat.not_le.mpr (hinv _ hmem).2)

/-- C4: the persistence loop stops as soon as the quota is reached: for any
round oracle, quota and round budget, if the accumulated unique-lead count
`c` recorded after round `r` satisfies `count ≤ c`, then `r` is the final
round — `ledger.search_rounds = r` and no round after `r` was executed.
(With quota 3 and a round-1 oracle yielding 4 unique candidates this gives
termination after round 1 with `search_rounds = 1`; see the witness.) -/
theorem c4_quota_reached_stops_loop (roundFn : Nat → Nat → List Lead)
    (count maxRounds r c : Nat)
    (hmem : (r, c) ∈ (persistLoop roundFn count maxRounds 1 ⟨[], [], 0, []⟩).roundsExecuted)
    (hq : count ≤ c) :
    (persistLoop roundFn count maxRounds 1 ⟨[], [], 0, []⟩).search_rounds = r ∧
    ∀ r' c', (r', c') ∈ (persistLoop roundFn count maxRounds 1 ⟨[], [], 0, []⟩).roundsExecuted →
      r' ≤ r := by
  exact persistLoopGo_quota_stops roundFn count maxRounds (maxRounds + 1 - 1) 1
    ⟨[], [], 0, []⟩ (by intro p hp; cases hp) r c hmem hq

/-- The round oracle of the spec's early-stop test: round 1 produces 4
distinct candidates; later rounds would produce one more. -/
def c4StubRounds : Nat → Nat → List Lead :=
  fun r _ => if r = 1 then [⟨"A"⟩, ⟨"B"⟩, ⟨"C"⟩, ⟨"D"⟩] else [⟨"E"⟩]

theorem c4_quota_reached_stops_loop_witness :
    ((persistLoop c4StubRounds 3 3 1 ⟨[], [], 0, []⟩).roundsExecuted = [(1, 4)] ∧
      (1, 4) ∈ (persistLoop c4StubRounds 3 3 1 ⟨[], [], 0, []⟩).roundsExecuted ∧
      3 ≤ 4) ∧
    ((persistLoop c4StubRounds 3 3 1 ⟨[], [], 0, []⟩).search_rounds = 1 ∧
      ∀ r' c', (r', c') ∈ (persistLoop c4StubRounds 3 3 1 ⟨[], [], 0, []⟩).roundsExecuted →
        r' ≤ 1) :=
  ⟨⟨by decide, by decide, by decide⟩,
    c4_quota_reached_stops_loop c4StubRounds 3 3 1 4 (by decide) (by decide)⟩

/-- The source record `_execute_search_round` appends for one query: a
success record when the search capability returns, a failure record carrying
`str(e)` when it raises. -/
def recordOfQuery (searchCap : String → Except String (List RawResult))
    (sourceName : String) (sourcePriority : Nat) (domains : List String)
    (q : String) : SourceRecordM :=
  match searchCap q with
  | .ok results =>
    { source_name := sourceName, source_priority := sourcePriority,
      query_text := q, results_count := results.length,
      was_successful := true, error_message := none,
      domains_searched := domains }
  | .error e =>
    { source_name := sourceName, source_priority := sourcePriority,
      query_text := q, results_count := 0,
      was_successful := false, error_message := some e,
      domains_searched := domains }

/-- The source records produced by the query loop are exactly one per query,
in order, independent of the accumulated URL/result state. -/
theorem runQueries_records (searchCap : String → Except String (List RawResult))
    (sourceName : String) (sourcePriority : Nat) (domains : List String)
    (searchRound : Nat) :
    ∀ (queries : List String) (seenUrls : List String) (acc : List TaggedResult),
      (runQueries searchCap sourceName sourcePriority domains searchRound
        queries seenUrls acc).1 =
      queries.map (recordOfQuery searchCap sourceName sourcePriority domains) := by
  intro queries
  induction queries with
  | nil => intro seenUrls acc; rfl
  | cons q rest ih =>
    intro seenUrls acc
    simp only [runQueries, List.map_cons]
    rcases hc : searchCap q with e | results
    · rw [show recordOfQuery searchCap sourceName sourcePriority domains q =
          { source_name := sourceName, source_priority := sourcePriority,
            query_text := q, results_count := 0,
            was_successful := false, error_message := some e,
            domains_searched := domains } from by
        unfold recordOfQuery; rw [hc]]
      dsimp only
      rw [ih]
    · rw [show recordOfQuery searchCap sourceName sourcePriority domains q =
          { source_name := sourceName, source_priority := sourcePriority,
            query_text := q, results_count := results.length,
            was_successful := true, error_message := none,
            domains_searched := domains } from by
        unfold recordOfQuery; rw [hc]]
      dsimp only
      rw [ih]

/-- The records half of `executeSearchRound` is the records half of the
query loop, whether or not any results were accumulated. -/
theorem executeSearchRound_records
    (searchCap : String → Except String (List RawResult))
    (extractCap : List TaggedResult → List Lead)
    (sourceName : String) (sourcePriority : Nat) (domains : List String)
    (searchRound : Nat) (queries : List String) :
    (executeSearchRound searchCap extractCap sourceName sourcePriority domains
      searchRound queries).1 =
    queries.map (recordOfQuery searchCap sourceName sourcePriority domains) := by
  unfold executeSearchRound
  rcases h : runQueries searchCap sourceName sourcePriority domains searchRound
    queries [] [] with ⟨recs, allResults⟩
  have := runQueries_records searchCap sourceName sourcePriority domains
    searchRound queries [] []
  rw [h] at this
  by_cases hres : allResults = [] <;> simp [hres, ← this]

/-- C5: if the search capability raises for the `i`-th query of a round
(with a non-empty exception message `e`), the round is not aborted: one
source record is still produced for EVERY query of the round, in order and
with the matching query text, and the `i`-th record has
`was_successful = false` and the non-empty `error_message = str(e)`. -/
theorem c5_failed_query_recorded_round_continues
    (searchCap : String → Except String (List RawResult))
    (extractCap : List TaggedResult → List Lead)
    (sourceName : String) (sourcePriority : Nat) (domains : List String)
    (searchRound : Nat) (queries : List String) (i : Nat) (q : String)
    (hq : queries[i]? = some q) (e : String)
    (he : searchCap q = .error e) (hne : e ≠ "") :
    (executeSearchRound searchCap extractCap sourceName sourcePriority domains
        searchRound queries).1.length = queries.length ∧
    (∀ (j : Nat) (qj : String), queries[j]? = some qj →
      ∃ srec : SourceRecordM, (executeSearchRound searchCap extractCap sourceName sourcePriority
          domains searchRound queries).1[j]? = some srec ∧
        srec.query_text = qj) ∧
    (∃ srec : SourceRecordM, (executeSearchRound searchCap extractCap sourceName sourcePriority
        domains searchRound queries).1[i]? = some srec ∧
      srec.was_successful = false ∧ srec.error_message = some e ∧
      srec.error_message ≠ some "") := by
  rw [executeSearchRound_records]
  refine ⟨List.length_map _ _, ?_, ?_⟩
  · intro j qj hj
    refine ⟨recordOfQuery searchCap sourceName sourcePriority domains qj, ?_, ?_⟩
    · rw [List.getElem?_map, hj]
      rfl
    · unfold recordOfQuery
      rcases searchCap qj with e' | results' <;> rfl
  · refine ⟨recordOfQuery searchCap sourceName sourcePriority domains q, ?_, ?_, ?_, ?_⟩
    · rw [List.getElem?_map, hq]
      rfl
    · unfold recordOfQuery
      rw [he]
    · unfold recordOfQuery
      rw [he]
    · unfold recordOfQuery
      rw [he]
      simp [hne]

theorem c5_failed_query_recorded_round_continues_witness :
    (let cap : String → Except String (List RawResult) := fun q =>
      if q = "q2" then .error "boom" else .ok [⟨"https://a.example"⟩]
    (["q1", "q2", "q3"] : List String)[1]? = some "q2" ∧
      cap "q2" = .error "boom" ∧ ("boom" : String) ≠ "") ∧
    (let cap : String → Except String (List RawResult) := fun q =>
      if q = "q2" then .error "boom" else .ok [⟨"https://a.example"⟩]
    (executeSearchRound cap (fun _ => []) "ClinicalTrials.gov" 1
        ["clinicaltrials.gov"] 1 ["q1", "q2", "q3"]).1.length = 3 ∧
    (∀ (j : Nat) (qj : String), (["q1", "q2", "q3"] : List String)[j]? = some qj →
      ∃ srec : SourceRecordM, (executeSearchRound cap (fun _ => []) "ClinicalTrials.gov" 1
          ["clinicaltrials.gov"] 1 ["q1", "q2", "q3"]).1[j]? = some srec ∧
        srec.query_text = qj) ∧
    (∃ srec : SourceRecordM, (executeSearchRound cap (fun _ => []) "ClinicalTrials.gov" 1
        ["clinicaltrials.gov"] 1 ["q1", "q2", "q3"]).1[1]? = some srec ∧
      srec.was_successful = false ∧ srec.error_message = some "boom" ∧
      srec.error_message ≠ some "")) :=
  ⟨⟨by decide, by rfl, by decide⟩,
    c5_failed_query_recorded_round_continues _ (fun _ => [])
      "ClinicalTrials.gov" 1 ["clinicaltrials.gov"] 1 ["q1", "q2", "q3"] 1 "q2"
      (by decide) "boom" (by rfl) (by decide)⟩

/-! ### C9: idempotence of the normalizer

Strategy: every character of `normalizeCore s` is a word character (so not a
parenthesis), not whitespace (so no suffix pattern or strip can fire), and
fixed by lowercasing (it came through the initial `lower()`); and every stage
of the pipeline is the identity on such strings. -/

theorem pyToLower_idem (c : Char) : pyToLower (pyToLower c) = pyToLower c := by
  unfold pyToLower
  by_cases h : 65 ≤ c.toNat ∧ c.toNat ≤ 90
  · rw [if_pos h]
    have hv : (Char.ofNat (c.toNat + 32)).toNat = c.toNat + 32 := by
      have hvalid : (c.toNat + 32).isValidChar := Or.inl (by omega)
      rw [Char.ofNat, dif_pos hvalid]
      rfl
    rw [if_neg (by rw [hv]; omega)]
  · rw [if_neg h, if_neg h]

theorem dropWhileEnd_sublist (p : Char → Bool) (l : List Char) :
    (dropWhileEnd p l).Sublist l := by
  have h : (l.reverse.dropWhile p).Sublist l.reverse := List.dropWhile_sublist _
  have h2 := List.reverse_sublist.mpr h
  rw [List.reverse_reverse] at h2
  exact h2

theorem pyStrip_sublist (l : List Char) : (pyStrip l).Sublist l :=
  (dropWhileEnd_sublist _ _).trans (List.dropWhile_sublist _)

theorem mem_of_getLast?_eq (l : List Char) (c : Char) (h : l.getLast? = some c) :
    c ∈ l := by
  rcases List.getLast?_eq_some_iff.mp h with ⟨ys, rfl⟩
  simp

theorem tryStripWord_some_sublist (w s r : List Char)
    (h : tryStripWord w s = some r) : r.Sublist s := by
  unfold tryStripWord at h
  by_cases hsuf : w.isSuffixOf s = true
  · rw [if_pos hsuf] at h
    dsimp only at h
    rcases hg : (s.take (s.length - w.length)).getLast? with _ | c
    · rw [hg] at h
      cases h
    · rw [hg] at h
      dsimp only at h
      by_cases hsp : pyIsSpace c = true
      · rw [if_pos hsp] at h
        injection h with h
        subst h
        exact (dropWhileEnd_sublist _ _).trans (List.take_sublist _ _)
      · rw [if_neg hsp] at h
        cases h
  · rw [if_neg hsuf] at h
    cases h

theorem stripOneSuffix_sublist (w : List Char) (d : Bool) (s : List Char) :
    (stripOneSuffix w d s).Sublist s := by
  unfold stripOneSuffix
  split
  · rcases hts : tryStripWord w s.dropLast with _ | r
    · exact List.Sublist.refl s
    · exact (tryStripWord_some_sublist w _ r hts).trans (List.dropLast_sublist s)
  · rcases hts : tryStripWord w s with _ | r
    · exact List.Sublist.refl s
    · exact tryStripWord_some_sublist w s r hts

theorem foldl_stripOneSuffix_sublist (pats : List (String × Bool)) :
    ∀ s : List Char,
      (List.foldl (fun t p => stripOneSuffix p.1.toList p.2 t) s pats).Sublist s := by
  induction pats with
  | nil => intro s; exact List.Sublist.refl s
  | cons p ps ih =>
    intro s
    simp only [List.foldl_cons]
    exact (ih _).trans (stripOneSuffix_sublist _ _ _)

theorem stripSuffixes_sublist (s : List Char) : (stripSuffixes s).Sublist s :=
  foldl_stripOneSuffix_sublist companySuffixes s

theorem removeParensGo_sublist (fuel : Nat) :
    ∀ s : List Char, (removeParensGo fuel s).Sublist s := by
  induction fuel with
  | zero => intro s; exact List.Sublist.refl s
  | succ fuel ih =>
    intro s
    simp only [removeParensGo]
    rcases h1 : s.dropWhile (fun c => c != '(') with _ | ⟨c1, tail⟩
    · exact List.Sublist.refl s
    · dsimp only
      rcases h2 : tail.dropWhile (fun c => c != ')') with _ | ⟨c2, afterClose⟩
      · exact List.Sublist.refl s
      · dsimp only
        have hs : s.takeWhile (fun c => c != '(') ++ (c1 :: tail) = s := by
          rw [← h1, List.takeWhile_append_dropWhile]
        have hrec : (removeParensGo fuel (afterClose.dropWhile pyIsSpace)).Sublist tail := by
          have hca : (c2 :: afterClose).Sublist tail := by
            rw [← h2]; exact List.dropWhile_sublist _
          exact ((ih _).trans (List.dropWhile_sublist _)).trans
            ((List.sublist_cons_self c2 afterClose).trans hca)
        have hstep : (dropWhileEnd pyIsSpace (s.takeWhile (fun c => c != '(')) ++
              removeParensGo fuel (afterClose.dropWhile pyIsSpace)).Sublist
            (s.takeWhile (fun c => c != '(') ++ (c1 :: tail)) :=
          List.Sublist.append (dropWhileEnd_sublist _ _)
            (hrec.trans (List.sublist_cons_self c1 tail))
        rw [hs] at hstep
        exact hstep

theorem removeParens_sublist (s : List Char) : (removeParens s).Sublist s :=
  removeParensGo_sublist s.length s

/-- Every character of a normalized name is a word character, is not
whitespace, and is fixed by lowercasing. -/
theorem normalizeCore_chars (s : List Char) :
    ∀ c ∈ normalizeCore s,
      pyIsWord c = true ∧ pyIsSpace c = false ∧ pyToLower c = c := by
  intro c hc
  unfold normalizeCore at hc
  by_cases hs : s = []
  · rw [if_pos hs] at hc
    cases hc
  · rw [if_neg hs] at hc
    dsimp only at hc
    have h1 := List.mem_filter.mp hc
    have h2 := List.mem_filter.mp h1.1
    have hsp : pyIsSpace c = false := by
      have := h1.2
      simpa using this
    have hw : pyIsWord c = true := by
      have h22 : pyIsWord c = true ∨ pyIsSpace c = true := by
        simpa using h2.2
      rcases h22 with hw | hcontra
      · exact hw
      · rw [hsp] at hcontra
        cases hcontra
    have hmem0 : c ∈ s.map pyToLower :=
      (pyStrip_sublist _).subset
        ((stripSuffixes_sublist _).subset ((removeParens_sublist _).subset h2.1))
    rcases List.mem_map.mp hmem0 with ⟨c0, _, rfl⟩
    exact ⟨hw, hsp, pyToLower_idem c0⟩

theorem map_pyToLower_eq_self (l : List Char) (h : ∀ c ∈ l, pyToLower c = c) :
    l.map pyToLower = l := by
  induction l with
  | nil => rfl
  | cons a as ih =>
    rw [List.map_cons, h a (List.mem_cons_self a as),
      ih (fun c hc => h c (List.mem_cons_of_mem a hc))]

theorem dropWhile_eq_self_of_false (p : Char → Bool) (l : List Char)
    (h : ∀ c ∈ l, p c = false) : l.dropWhile p = l := by
  cases l with
  | nil => rfl
  | cons a as =>
    rw [List.dropWhile_cons, h a (List.mem_cons_self a as)]
    simp

theorem dropWhileEnd_eq_self_of_false (p : Char → Bool) (l : List Char)
    (h : ∀ c ∈ l, p c = false) : dropWhileEnd p l = l := by
  unfold dropWhileEnd
  rw [dropWhile_eq_self_of_false p l.reverse
    (fun c hc => h c (List.mem_reverse.mp hc)), List.reverse_reverse]

theorem pyStrip_eq_self (l : List Char) (h : ∀ c ∈ l, pyIsSpace c = false) :
    pyStrip l = l := by
  unfold pyStrip
  rw [dropWhile_eq_self_of_false pyIsSpace l h, dropWhileEnd_eq_self_of_false pyIsSpace l h]

theorem tryStripWord_eq_none (w s : List Char)
    (h : ∀ c ∈ s, pyIsSpace c = false) : tryStripWord w s = none := by
  unfold tryStripWord
  by_cases hsuf : w.isSuffixOf s = true
  · rw [if_pos hsuf]
    dsimp only
    rcases hg : (s.take (s.length - w.length)).getLast? with _ | c
    · rfl
    · dsimp only
      have hc : c ∈ s :=
        (List.take_sublist _ _).subset (mem_of_getLast?_eq _ c hg)
      rw [h c hc]
      rfl
  · rw [if_neg hsuf]

theorem stripOneSuffix_eq_self (w : List Char) (d : Bool) (s : List Char)
    (h : ∀ c ∈ s, pyIsSpace c = false) : stripOneSuffix w d s = s := by
  unfold stripOneSuffix
  have h1 : tryStripWord w s = none := tryStripWord_eq_none w s h
  have h2 : tryStripWord w s.dropLast = none :=
    tryStripWord_eq_none w _ (fun c hc => h c ((List.dropLast_sublist s).subset hc))
  split
  · rw [h2]
  · rw [h1]

theorem stripSuffixes_eq_self (s : List Char)
    (h : ∀ c ∈ s, pyIsSpace c = false) : stripSuffixes s = s := by
  unfold stripSuffixes
  induction companySuffixes with
  | nil => rfl
  | cons p ps ih =>
    rw [List.foldl_cons, stripOneSuffix_eq_self _ _ _ h, ih]

theorem removeParens_eq_self (s : List Char) (h : '(' ∉ s) :
    removeParens s = s := by
  unfold removeParens
  cases hfl : s.length with
  | zero => rfl
  | succ n =>
    simp only [removeParensGo]
    rw [List.dropWhile_eq_nil_iff.mpr (fun c hc => by
      simp only [bne_iff_ne, ne_eq]
      intro hcc
      exact h (hcc ▸ hc))]

/-- C9: the Name Normalizer is idempotent —
`normalize_company_name(normalize_company_name(x)) = normalize_company_name(x)`
for every string `x`. -/
theorem c9_normalize_idempotent (x : String) :
    normalizeCompanyName (normalizeCompanyName x) = normalizeCompanyName x := by
  have key : ∀ l : List Char,
      (∀ c ∈ l, pyIsWord c = true ∧ pyIsSpace c = false ∧ pyToLower c = c) →
      normalizeCore l = l := by
    intro l h
    by_cases hl : l = []
    · rw [hl]
      rfl
    · have hnosp : ∀ c ∈ l, pyIsSpace c = false := fun c hc => (h c hc).2.1
      unfold normalizeCore
      rw [if_neg hl]
      dsimp only
      rw [map_pyToLower_eq_self l (fun c hc => (h c hc).2.2),
        pyStrip_eq_self l hnosp, stripSuffixes_eq_self l hnosp,
        removeParens_eq_self l (fun hp => by
          have := (h '(' hp).1
          exact absurd this (by decide)),
        List.filter_eq_self.mpr (fun a ha => by
          rw [hnosp a ((List.mem_filter.mp ha).1)]
          rfl),
        List.filter_eq_self.mpr (fun a ha => by
          rw [(h a ha).1]
          rfl)]
  show (⟨normalizeCore (⟨normalizeCore x.data⟩ : String).data⟩ : String) =
    ⟨normalizeCore x.data⟩
  exact congrArg String.mk (key (normalizeCore x.data) (normalizeCore_chars x.data))
